import Mathlib

/-!
# SecureComm: client crypto helpers and the server-side client key registry

A shallow embedding of

* `src/clients/golang/internal/client/crypto.go`
  (`SignPayloadECDSA`, `GenerateRandBytes`, `EncryptRSA`, `DecodeBase64`,
  `LoadRSAPubDER`, `ParseECDSAPriv`, `Pkcs7Pad`), and
* `src/server/secure_comm_service/internal/repository/client_keystore/redis_keystore.go`
  (`SaveClientKeys`, `GetClientRSAPub`, `GetClientECDSAPub`),

followed by theorems about them.

Conventions of the embedding:

* a Go `[]byte` is a `List Byte` with `Byte = Fin 256`; the functions of
  `crypto.go` that allocate a slice of a length chosen by the caller take the
  runtime's allocation limit `maxAlloc` as a parameter and panic above it;
* a Go `int` is an `Int`; arithmetic that can leave the 64-bit range is
  wrapped with `wrapInt`, and `byte(x)` is reduction modulo 256;
* a Go run-time panic is the `Run.panic` outcome, an `error` result is
  `Except.error`;
* library calls whose result the code only branches on (PEM and X.509
  decoding, the entropy source) are parameters of the embedded function.
-/

namespace SecureComm

/-! ## Basic types -/

/-- A Go `byte`. -/
abbrev Byte := Fin 256

/-- A Go `error` value, as far as the embedded code builds or inspects one. -/
inductive GoError where
  /-- An error made by `fmt.Errorf` without `%w`. -/
  | errorString (msg : String)
  /-- The error `fmt.Errorf(msg + ": %w", cause)`. -/
  | wrap (msg : String) (cause : GoError)
  /-- The `base64.CorruptInputError` of the decoder (offset not modelled). -/
  | corruptInput
  /-- The `redis.Nil` reply: the key does not exist (any more). -/
  | redisNil
  /-- Any other error reported by a library or by the backend. -/
  | backend (msg : String)
  deriving Repr, DecidableEq

deriving instance DecidableEq for Except

/-- Outcome of running a Go function that may panic at run time. -/
inductive Run (α : Type) where
  | ret (v : α)
  | panic (msg : String)
  deriving Repr, DecidableEq

/-- Two's-complement wrap-around of a 64-bit Go `int`. -/
def wrapInt (x : Int) : Int := (x + 2 ^ 63) % 2 ^ 64 - 2 ^ 63

/-- The Go conversion `byte(x)` of an `int`: the low eight bits. -/
def toByte (x : Int) : Byte := Fin.ofNat (x % 256).toNat

/-! ## `crypto.go`: `Pkcs7Pad`

`maxAlloc` is the allocation limit of the Go runtime: the largest number of
bytes one slice may have. It is a constant of the platform (`2 ^ 48` on 64-bit
Linux), above which `make` and `append` panic with `len out of range`; a
process that can obtain less memory than that has a lower effective limit. -/

/-- Concatenation of `n` copies of `b`. -/
def repeatBytes (b : List Byte) : Nat → List Byte
  | 0 => []
  | n + 1 => b ++ repeatBytes b n

/-- The library call `bytes.Repeat(b, count)`: an empty slice for count 0, a
panic on a negative count, on a result length `len(b) * count` above the
largest `int` (the library tests `len(b) > maxInt / count`, which says the
same), and in the allocation of the result when that length exceeds
`maxAlloc`. -/
def bytesRepeat (maxAlloc : Nat) (b : List Byte) (count : Int) : Run (List Byte) :=
  if count = 0 then .ret []
  else if count < 0 then .panic "bytes: negative Repeat count"
  else if (b.length : Int) * count > 2 ^ 63 - 1 then
    .panic "bytes: Repeat output length overflow"
  else if (b.length : Int) * count > (maxAlloc : Int) then
    .panic "runtime error: makeslice: len out of range"
  else .ret (repeatBytes b count.toNat)

/-- The built-in `append(data, padding...)`: panics when the new length
exceeds `maxAlloc` (no backing array can hold it). -/
def appendBytes (maxAlloc : Nat) (data padding : List Byte) : Run (List Byte) :=
  if data.length + padding.length > maxAlloc then
    .panic "runtime error: growslice: len out of range"
  else .ret (data ++ padding)

/-- Embedding of `Pkcs7Pad(data []byte, blockSize int) []byte` under the
allocation limit `maxAlloc`.

```go
padLen := blockSize - (len(data) % blockSize)
if padLen == 0 { padLen = blockSize }
padding := bytes.Repeat([]byte{byte(padLen)}, padLen)
return append(data, padding...)
```
Go's `%` truncates towards zero (`Int.tmod`) and panics on a zero divisor. -/
def Pkcs7Pad (maxAlloc : Nat) (data : List Byte) (blockSize : Int) : Run (List Byte) :=
  if blockSize = 0 then .panic "runtime error: integer divide by zero"
  else
    let padLen := wrapInt (blockSize - Int.tmod (data.length : Int) blockSize)
    let padLen := if padLen = 0 then blockSize else padLen
    match bytesRepeat maxAlloc [toByte padLen] padLen with
    | .panic msg => .panic msg
    | .ret padding => appendBytes maxAlloc data padding

/-- The number of padding bytes `Pkcs7Pad` appends for a positive block size. -/
def padCount (len : Nat) (n : Int) : Nat := (n - (len : Int) % n).toNat


/-! ## `encoding/base64`: the standard encoding

`base64.StdEncoding` of the Go library (RFC 4648, alphabet `encodeStd`,
padding character `=`), as used by `EncodeToString` and `DecodeString`. -/

/-- The alphabet of the standard encoding. -/
def encodeStd : List Char :=
  "ABCDEFGHIJKLMNOPQRSTUVWXYZabcdefghijklmnopqrstuvwxyz0123456789+/".data

/-- The character of a six-bit value. -/
def encChar (v : Nat) : Char := encodeStd.getD v 'A'

/-- The decode map: the six-bit value of a character of the alphabet. -/
def decChar (c : Char) : Option Nat :=
  let i := encodeStd.indexOf c
  if i < 64 then some i else none

/-- Encoding of a byte sequence, three bytes to four characters; a last group
of one or two bytes is padded with `=`. -/
def encodeQuanta : List Byte → List Char
  | a :: b :: c :: rest =>
    let val := a.val * 65536 + b.val * 256 + c.val
    encChar (val / 262144 % 64) :: encChar (val / 4096 % 64) ::
      encChar (val / 64 % 64) :: encChar (val % 64) :: encodeQuanta rest
  | [a, b] =>
    let val := a.val * 65536 + b.val * 256
    [encChar (val / 262144 % 64), encChar (val / 4096 % 64), encChar (val / 64 % 64), '=']
  | [a] =>
    let val := a.val * 65536
    [encChar (val / 262144 % 64), encChar (val / 4096 % 64), '=', '=']
  | [] => []

/-- The call `base64.StdEncoding.EncodeToString(src)`. -/
def EncodeToString (src : List Byte) : String := String.mk (encodeQuanta src)

/-- Decoding of a sequence of characters, four at a time. Padding is accepted
only in the last group (`xx==` or `xxx=`), a character outside the alphabet
or an incomplete group is corrupt input. -/
def decodeQuanta : List Char → Except GoError (List Byte)
  | [] => .ok []
  | c0 :: c1 :: c2 :: c3 :: rest =>
    match decChar c0, decChar c1 with
    | some v0, some v1 =>
      if c2 = '=' then
        if c3 = '=' ∧ rest = [] then
          let val := v0 * 262144 + v1 * 4096
          .ok [Fin.ofNat (val / 65536)]
        else .error .corruptInput
      else
        match decChar c2 with
        | none => .error .corruptInput
        | some v2 =>
          if c3 = '=' then
            if rest = [] then
              let val := v0 * 262144 + v1 * 4096 + v2 * 64
              .ok [Fin.ofNat (val / 65536), Fin.ofNat (val / 256)]
            else .error .corruptInput
          else
            match decChar c3 with
            | none => .error .corruptInput
            | some v3 =>
              let val := v0 * 262144 + v1 * 4096 + v2 * 64 + v3
              match decodeQuanta rest with
              | .error e => .error e
              | .ok out =>
                .ok (Fin.ofNat (val / 65536) :: Fin.ofNat (val / 256) :: Fin.ofNat val :: out)
    | _, _ => .error .corruptInput
  | _ => .error .corruptInput

/-- The call `base64.StdEncoding.DecodeString(s)`: carriage returns and line
feeds are skipped, the rest is decoded group by group. -/
def DecodeString (s : String) : Except GoError (List Byte) :=
  decodeQuanta (s.data.filter (fun c => c ≠ '\r' ∧ c ≠ '\n'))

/-- A decoded key of some algorithm: what `x509.ParsePKCS8PrivateKey` and
`x509.ParsePKIXPublicKey` return as `any`. `K` is the ECDSA key type, `O`
stands for the keys of every other algorithm. -/
inductive AnyKey (K O : Type) where
  | ecdsa (k : K)
  | other (k : O)
  deriving Repr, DecidableEq

/-- Embedding of `ParseECDSAPriv(pemBytes []byte) (*ecdsa.PrivateKey, error)`.

The three library calls are parameters: `pemDecode` is `pem.Decode` (the
bytes of the first block, `none` when there is no block), `ParseECPrivateKey`
and `ParsePKCS8PrivateKey` are the `x509` decoders. -/
def ParseECDSAPriv {K O : Type}
    (pemDecode : List Byte → Option (List Byte))
    (ParseECPrivateKey : List Byte → Except GoError K)
    (ParsePKCS8PrivateKey : List Byte → Except GoError (AnyKey K O))
    (pemBytes : List Byte) : Except GoError K :=
  match pemDecode pemBytes with
  | none => .error (.errorString "invalid PEM block")
  | some blockBytes =>
    match ParseECPrivateKey blockBytes with
    | .ok key => .ok key
    | .error _ =>
      match ParsePKCS8PrivateKey blockBytes with
      | .ok (.ecdsa k) => .ok k
      | .ok (.other _) => .error (.errorString "unable to parse ECDSA private key")
      | .error _ => .error (.errorString "unable to parse ECDSA private key")

/-! ## The backend key-value store -/

/-- One stored value together with the instant at which it expires. -/
structure Entry where
  value : String
  expireAt : Int
  deriving Repr, DecidableEq

/-- Modelled from the spec: the backend key-value store, an external
collaborator of which the repository holds only the calls (`redis.Set`,
`redis.Get`). Following the spec (section 6 and the glossary entry for TTL) it
offers `Set(key, value, ttl)` and `Get(key)`, and a record is absent once its
ttl has elapsed.

`now` is the store's clock and `slots` its content (durations and instants
are `time.Duration` ticks). `script` fixes the outcome of the coming write
commands, in order: `some err` makes the command fail with `err` and write
nothing, `none` (or an exhausted script) lets it succeed. -/
structure RedisState where
  now : Int
  slots : String → Option Entry
  script : List (Option GoError)

/-- A store with nothing in it, whose writes all succeed. -/
def RedisState.empty (now : Int) : RedisState :=
  { now := now, slots := fun _ => none, script := [] }

/-- The command `Set(key, value, ttl)`; returns the command's error (`none`
for Go's `nil`) and the store afterwards. -/
def RedisState.Set (s : RedisState) (key value : String) (ttl : Int) :
    Option GoError × RedisState :=
  match s.script with
  | some err :: rest => (some err, { s with script := rest })
  | none :: rest =>
    (none, { now := s.now,
             slots := fun k => if k = key then some ⟨value, s.now + ttl⟩ else s.slots k,
             script := rest })
  | [] =>
    (none, { now := s.now,
             slots := fun k => if k = key then some ⟨value, s.now + ttl⟩ else s.slots k,
             script := [] })

/-- The command `Get(key)`: the stored value while it has not expired,
`redis.Nil` otherwise. -/
def RedisState.Get (s : RedisState) (key : String) : Except GoError String :=
  match s.slots key with
  | some e => if s.now < e.expireAt then .ok e.value else .error .redisNil
  | none => .error .redisNil

/-- The store after `d` ticks of the clock have passed. -/
def RedisState.advance (s : RedisState) (d : Nat) : RedisState :=
  { s with now := s.now + d }

/-! ## `redis_keystore.go`: the client key registry -/

/-- The registry object; its `redis` handle is the `RedisState` passed to
every operation. -/
structure redisClientPubKeyStore where
  ttl : Int
  deriving Repr, DecidableEq

/-- Embedding of `NewRedisClientPubKeyStore(rClient, ttl)`. -/
def NewRedisClientPubKeyStore (ttl : Int) : redisClientPubKeyStore := { ttl := ttl }

/-- Slot name `fmt.Sprintf("client:%s:rsa_pub", clientID)`. -/
def keyRSA (clientID : String) : String := "client:" ++ clientID ++ ":rsa_pub"

/-- Slot name `fmt.Sprintf("client:%s:ecdsa_pub", clientID)`. -/
def keyECDSA (clientID : String) : String := "client:" ++ clientID ++ ":ecdsa_pub"

/-- Embedding of `SaveClientKeys(ctx, clientID, rsaPubDER, ecdsaPubDER) error`:
the returned error (`none` for `nil`) and the store afterwards. -/
def SaveClientKeys (r : redisClientPubKeyStore) (s : RedisState) (clientID : String)
    (rsaPubDER ecdsaPubDER : List Byte) : Option GoError × RedisState :=
  match s.Set (keyRSA clientID) (EncodeToString rsaPubDER) r.ttl with
  | (some err, s1) => (some (.wrap "redis save rsa_pub" err), s1)
  | (none, s1) =>
    match s1.Set (keyECDSA clientID) (EncodeToString ecdsaPubDER) r.ttl with
    | (some err, s2) => (some (.wrap "redis save ecdsa_pub" err), s2)
    | (none, s2) => (none, s2)

/-- Embedding of `GetClientRSAPub(ctx, clientID) ([]byte, error)`. -/
def GetClientRSAPub (s : RedisState) (clientID : String) : Except GoError (List Byte) :=
  match s.Get (keyRSA clientID) with
  | .error err => .error (.wrap "redis get rsa_pub" err)
  | .ok b64 => DecodeString b64

/-- Embedding of `GetClientECDSAPub(ctx, clientID) (*ecdsa.PublicKey, error)`;
`ParsePKIXPublicKey` is the `x509` decoder, a parameter. -/
def GetClientECDSAPub {K O : Type}
    (ParsePKIXPublicKey : List Byte → Except GoError (AnyKey K O))
    (s : RedisState) (clientID : String) : Except GoError K :=
  match s.Get (keyECDSA clientID) with
  | .error err => .error (.wrap "redis get ecdsa_pub" err)
  | .ok b64 =>
    match DecodeString b64 with
    | .error err => .error (.wrap "base64 decode ecdsa_pub" err)
    | .ok der =>
      match ParsePKIXPublicKey der with
      | .error err => .error (.wrap "parse ecdsa pub DER" err)
      | .ok (.ecdsa pubECDSA) => .ok pubECDSA
      | .ok (.other _) => .error (.errorString "unexpected public key type, want ECDSA")


/-- The first store write of `SaveClientKeys`: the RSA slot. -/
def rsaWrite (r : redisClientPubKeyStore) (s : RedisState) (clientID : String)
    (rsaPubDER : List Byte) : Option GoError × RedisState :=
  s.Set (keyRSA clientID) (EncodeToString rsaPubDER) r.ttl

/-- The second store write of `SaveClientKeys`, issued on the store the first
write left: the ECDSA slot. -/
def ecdsaWrite (r : redisClientPubKeyStore) (s : RedisState) (clientID : String)
    (rsaPubDER ecdsaPubDER : List Byte) : Option GoError × RedisState :=
  (rsaWrite r s clientID rsaPubDER).2.Set (keyECDSA clientID) (EncodeToString ecdsaPubDER) r.ttl

/-! ## Concrete inputs of the worked examples -/

/-- One second, in `time.Duration` ticks (nanoseconds). -/
def second : Int := 1000000000

/-- A store whose first write succeeds and whose second write fails. -/
def flakyStore : RedisState :=
  { now := 0, slots := fun _ => none, script := [none, some (.backend "connection reset")] }

/-- A PEM decoder for the examples: the input itself is the block, an empty
input holds no block. -/
def demoPemDecode (b : List Byte) : Option (List Byte) := if b = [] then none else some b

/-- A raw EC decoder for the examples: accepts blocks that start with byte 1. -/
def demoParseEC (b : List Byte) : Except GoError Nat :=
  if b.head? = some 1 then .ok b.length
  else .error (.backend "x509: failed to parse EC private key")

/-- A PKCS#8 decoder for the examples: a block that starts with byte 2 holds an
ECDSA key, one that starts with byte 3 holds an RSA key. -/
def demoParsePKCS8 (b : List Byte) : Except GoError (AnyKey Nat String) :=
  if b.head? = some 2 then .ok (.ecdsa b.length)
  else if b.head? = some 3 then .ok (.other "rsa")
  else .error (.backend "x509: failed to parse private key")

/-- A PKIX decoder for the examples: a blob that starts with byte 2 holds an
ECDSA public key. -/
def demoParsePKIX (b : List Byte) : Except GoError (AnyKey Nat String) :=
  if b.head? = some 2 then .ok (.ecdsa b.length)
  else .error (.backend "x509: failed to parse public key")

/-- The allocation limit of the runtime on 64-bit Linux. -/
def maxAllocLinux64 : Nat := 2 ^ 48

theorem repeatBytes_singleton (x : Byte) (n : Nat) :
    repeatBytes [x] n = List.replicate n x := by
  induction n with
  | zero => rfl
  | succ n ih => simp [repeatBytes, ih, List.replicate_succ]

theorem wrapInt_of_inRange (x : Int) (h1 : -(2 ^ 63) ≤ x) (h2 : x < 2 ^ 63) :
    wrapInt x = x := by
  unfold wrapInt
  omega

theorem padCount_spec (len : Nat) (n : Int) (hn : 1 ≤ n) :
    ((padCount len n : Nat) : Int) = n - (len : Int) % n ∧ 1 ≤ padCount len n ∧
      ((padCount len n : Nat) : Int) ≤ n := by
  have h0 : 0 ≤ (len : Int) % n := Int.emod_nonneg _ (by omega)
  have h1 : (len : Int) % n < n := Int.emod_lt_of_pos _ (by omega)
  unfold padCount
  omega

/-- Closed form of `Pkcs7Pad` on every positive block size of the `int` range
whose padded length is within the allocation limit. -/
theorem Pkcs7Pad_pos (maxAlloc : Nat) (data : List Byte) (n : Int) (hn : 1 ≤ n)
    (hn2 : n < 2 ^ 63)
    (hfit : (data.length : Int) + (n - (data.length : Int) % n) ≤ (maxAlloc : Int)) :
    Pkcs7Pad maxAlloc data n =
      .ret (data ++ List.replicate (padCount data.length n)
        (toByte (padCount data.length n))) := by
  obtain ⟨hk, hk1, hk2⟩ := padCount_spec data.length n hn
  have htm : Int.tmod (data.length : Int) n = (data.length : Int) % n :=
    Int.tmod_eq_emod (by omega) (by omega)
  have hw : wrapInt (n - Int.tmod (data.length : Int) n) = (padCount data.length n : Int) := by
    rw [htm, ← hk]
    exact wrapInt_of_inRange _ (by omega) (by omega)
  have hne : n ≠ 0 := by omega
  have hk0 : ((padCount data.length n : Nat) : Int) ≠ 0 := by omega
  have hneg : ¬ ((padCount data.length n : Nat) : Int) < 0 := by omega
  have hov : ¬ (([toByte (padCount data.length n : Int)] : List Byte).length : Int) *
      ((padCount data.length n : Nat) : Int) > 2 ^ 63 - 1 := by
    simp only [List.length_singleton, Nat.cast_one, one_mul]
    omega
  have hal : ¬ (([toByte (padCount data.length n : Int)] : List Byte).length : Int) *
      ((padCount data.length n : Nat) : Int) > (maxAlloc : Int) := by
    simp only [List.length_singleton, Nat.cast_one, one_mul]
    omega
  have hgrow : ¬ data.length + (List.replicate (padCount data.length n)
      (toByte (padCount data.length n : Int))).length > maxAlloc := by
    simp only [List.length_replicate]
    omega
  simp only [Pkcs7Pad, hne, if_false, hw, hk0, bytesRepeat, hneg, hov, hal, Int.toNat_ofNat,
    repeatBytes_singleton, appendBytes, hgrow]

/-! ## Lemmas on the base64 encoding -/

theorem decChar_encChar : ∀ v : Fin 64, decChar (encChar v.val) = some v.val := by decide

theorem encChar_plain :
    ∀ v : Fin 64, encChar v.val ≠ '=' ∧ encChar v.val ≠ '\r' ∧ encChar v.val ≠ '\n' := by
  decide

theorem decChar_encChar_lt (v : Nat) (h : v < 64) : decChar (encChar v) = some v :=
  decChar_encChar ⟨v, h⟩

theorem encChar_ne_pad (v : Nat) (h : v < 64) : encChar v ≠ '=' :=
  (encChar_plain ⟨v, h⟩).1

theorem encChar_keep (v : Nat) (h : v < 64) :
    decide (encChar v ≠ '\r' ∧ encChar v ≠ '\n') = true := by
  have := encChar_plain ⟨v, h⟩
  simp [this.2.1, this.2.2]

theorem byte_ofNat_eq (a : Byte) (n : Nat) (h : n % 256 = a.val) : (Fin.ofNat n : Byte) = a := by
  apply Fin.ext
  simpa [Fin.ofNat] using h

theorem encodeQuanta_keep (src : List Byte) :
    ∀ c ∈ encodeQuanta src, decide (c ≠ '\r' ∧ c ≠ '\n') = true := by
  induction src using encodeQuanta.induct with
  | case1 a b c rest ih =>
    intro x hx
    simp only [encodeQuanta, List.mem_cons] at hx
    rcases hx with h | h | h | h | h
    · rw [h]; exact encChar_keep _ (Nat.mod_lt _ (by decide))
    · rw [h]; exact encChar_keep _ (Nat.mod_lt _ (by decide))
    · rw [h]; exact encChar_keep _ (Nat.mod_lt _ (by decide))
    · rw [h]; exact encChar_keep _ (Nat.mod_lt _ (by decide))
    · exact ih x h
  | case2 a b =>
    intro x hx
    simp only [encodeQuanta, List.mem_cons, List.mem_singleton, List.not_mem_nil, or_false] at hx
    rcases hx with h | h | h | h
    · rw [h]; exact encChar_keep _ (Nat.mod_lt _ (by decide))
    · rw [h]; exact encChar_keep _ (Nat.mod_lt _ (by decide))
    · rw [h]; exact encChar_keep _ (Nat.mod_lt _ (by decide))
    · rw [h]; decide
  | case3 a =>
    intro x hx
    simp only [encodeQuanta, List.mem_cons, List.mem_singleton, List.not_mem_nil, or_false] at hx
    rcases hx with h | h | h | h
    · rw [h]; exact encChar_keep _ (Nat.mod_lt _ (by decide))
    · rw [h]; exact encChar_keep _ (Nat.mod_lt _ (by decide))
    · rw [h]; decide
    · rw [h]; decide
  | case4 =>
    intro x hx
    simp [encodeQuanta] at hx

theorem filter_encodeQuanta (src : List Byte) :
    (encodeQuanta src).filter (fun c => c ≠ '\r' ∧ c ≠ '\n') = encodeQuanta src :=
  List.filter_eq_self.mpr (encodeQuanta_keep src)

theorem decodeQuanta_encodeQuanta (src : List Byte) :
    decodeQuanta (encodeQuanta src) = .ok src := by
  induction src using encodeQuanta.induct with
  | case1 a b c rest ih =>
    have ha := a.isLt
    have hb := b.isLt
    have hc := c.isLt
    simp only [encodeQuanta, decodeQuanta, decChar_encChar_lt _ (Nat.mod_lt _ (by decide)),
      encChar_ne_pad _ (Nat.mod_lt _ (by decide)), if_false, ih]
    congr 1
    rw [byte_ofNat_eq a _ (by omega), byte_ofNat_eq b _ (by omega), byte_ofNat_eq c _ (by omega)]
  | case2 a b =>
    have ha := a.isLt
    have hb := b.isLt
    simp only [encodeQuanta, decodeQuanta, decChar_encChar_lt _ (Nat.mod_lt _ (by decide)),
      encChar_ne_pad _ (Nat.mod_lt _ (by decide)), if_false, if_true]
    rw [byte_ofNat_eq a _ (by omega), byte_ofNat_eq b _ (by omega)]
  | case3 a =>
    have ha := a.isLt
    simp only [encodeQuanta, decodeQuanta, decChar_encChar_lt _ (Nat.mod_lt _ (by decide)),
      and_self, if_true]
    rw [byte_ofNat_eq a _ (by omega)]
  | case4 => rfl

theorem DecodeString_EncodeToString (src : List Byte) :
    DecodeString (EncodeToString src) = .ok src := by
  simp only [DecodeString, EncodeToString, filter_encodeQuanta, decodeQuanta_encodeQuanta]

/-! ## Lemmas on the slot names and the store -/

theorem keyRSA_data (a : String) :
    (keyRSA a).data = "client:".data ++ (a.data ++ ":rsa_pub".data) := by
  simp [keyRSA, String.data_append, List.append_assoc]

theorem keyECDSA_data (a : String) :
    (keyECDSA a).data = "client:".data ++ (a.data ++ ":ecdsa_pub".data) := by
  simp [keyECDSA, String.data_append, List.append_assoc]

theorem keyRSA_ne_keyECDSA (a b : String) : keyRSA a ≠ keyECDSA b := by
  intro h
  have h1 := congrArg String.data h
  rw [keyRSA_data, keyECDSA_data] at h1
  have h2 := congrArg List.reverse (List.append_cancel_left h1)
  simp [List.reverse_append] at h2

theorem keyRSA_inj (a b : String) (h : keyRSA a = keyRSA b) : a = b := by
  have h1 := congrArg String.data h
  rw [keyRSA_data, keyRSA_data] at h1
  exact String.ext (List.append_cancel_right (List.append_cancel_left h1))

theorem keyECDSA_inj (a b : String) (h : keyECDSA a = keyECDSA b) : a = b := by
  have h1 := congrArg String.data h
  rw [keyECDSA_data, keyECDSA_data] at h1
  exact String.ext (List.append_cancel_right (List.append_cancel_left h1))

theorem Set_now (s : RedisState) (key value : String) (ttl : Int) :
    (s.Set key value ttl).2.now = s.now := by
  unfold RedisState.Set
  split <;> rfl

theorem Set_slots_of_ok (s : RedisState) (key value : String) (ttl : Int)
    (h : (s.Set key value ttl).1 = none) :
    (s.Set key value ttl).2.slots =
      fun k => if k = key then some ⟨value, s.now + ttl⟩ else s.slots k := by
  unfold RedisState.Set at h ⊢
  split <;> simp_all

theorem Set_slots_of_error (s : RedisState) (key value : String) (ttl : Int) (err : GoError)
    (h : (s.Set key value ttl).1 = some err) :
    (s.Set key value ttl).2.slots = s.slots := by
  unfold RedisState.Set at h ⊢
  split <;> simp_all

theorem Set_slots_other (s : RedisState) (key value : String) (ttl : Int) (k : String)
    (hk : k ≠ key) : (s.Set key value ttl).2.slots k = s.slots k := by
  unfold RedisState.Set
  split <;> simp [hk]

/-- The two writes of `SaveClientKeys`, spelled out: the result of the first
write decides, then the result of the second. -/
theorem SaveClientKeys_cases (r : redisClientPubKeyStore) (s : RedisState) (clientID : String)
    (rsaPubDER ecdsaPubDER : List Byte) :
    (∃ err, (s.Set (keyRSA clientID) (EncodeToString rsaPubDER) r.ttl).1 = some err ∧
        SaveClientKeys r s clientID rsaPubDER ecdsaPubDER =
          (some (.wrap "redis save rsa_pub" err),
            (s.Set (keyRSA clientID) (EncodeToString rsaPubDER) r.ttl).2)) ∨
      ((s.Set (keyRSA clientID) (EncodeToString rsaPubDER) r.ttl).1 = none ∧
        ((∃ err, ((s.Set (keyRSA clientID) (EncodeToString rsaPubDER) r.ttl).2.Set
              (keyECDSA clientID) (EncodeToString ecdsaPubDER) r.ttl).1 = some err ∧
            SaveClientKeys r s clientID rsaPubDER ecdsaPubDER =
              (some (.wrap "redis save ecdsa_pub" err),
                ((s.Set (keyRSA clientID) (EncodeToString rsaPubDER) r.ttl).2.Set
                  (keyECDSA clientID) (EncodeToString ecdsaPubDER) r.ttl).2)) ∨
          (((s.Set (keyRSA clientID) (EncodeToString rsaPubDER) r.ttl).2.Set
              (keyECDSA clientID) (EncodeToString ecdsaPubDER) r.ttl).1 = none ∧
            SaveClientKeys r s clientID rsaPubDER ecdsaPubDER =
              (none, ((s.Set (keyRSA clientID) (EncodeToString rsaPubDER) r.ttl).2.Set
                  (keyECDSA clientID) (EncodeToString ecdsaPubDER) r.ttl).2)))) := by
  unfold SaveClientKeys
  rcases h1 : s.Set (keyRSA clientID) (EncodeToString rsaPubDER) r.ttl with ⟨e1, s1⟩
  cases e1 with
  | some err => exact Or.inl ⟨err, rfl, rfl⟩
  | none =>
    refine Or.inr ⟨rfl, ?_⟩
    dsimp only
    rcases h2 : s1.Set (keyECDSA clientID) (EncodeToString ecdsaPubDER) r.ttl with ⟨e2, s2⟩
    cases e2 with
    | some err => exact Or.inl ⟨err, rfl, rfl⟩
    | none => exact Or.inr ⟨rfl, rfl⟩

/-- What a save leaves in the store: the clock is untouched and every slot
other than the client's two keeps its content. -/
theorem SaveClientKeys_frame (r : redisClientPubKeyStore) (s : RedisState) (clientID : String)
    (rsaPubDER ecdsaPubDER : List Byte) :
    (SaveClientKeys r s clientID rsaPubDER ecdsaPubDER).2.now = s.now ∧
      ∀ k, k ≠ keyRSA clientID → k ≠ keyECDSA clientID →
        (SaveClientKeys r s clientID rsaPubDER ecdsaPubDER).2.slots k = s.slots k := by
  rcases SaveClientKeys_cases r s clientID rsaPubDER ecdsaPubDER with
    ⟨err, -, h⟩ | ⟨-, ⟨err, -, h⟩ | ⟨-, h⟩⟩
  · rw [h]
    exact ⟨Set_now _ _ _ _, fun k hk _ => Set_slots_other _ _ _ _ k hk⟩
  · rw [h]
    refine ⟨by rw [Set_now, Set_now], fun k hk hk2 => ?_⟩
    rw [Set_slots_other _ _ _ _ k hk2, Set_slots_other _ _ _ _ k hk]
  · rw [h]
    refine ⟨by rw [Set_now, Set_now], fun k hk hk2 => ?_⟩
    rw [Set_slots_other _ _ _ _ k hk2, Set_slots_other _ _ _ _ k hk]

/-- The two slots after a save that reported no error. -/
theorem SaveClientKeys_slots_of_ok (r : redisClientPubKeyStore) (s : RedisState)
    (clientID : String) (rsaPubDER ecdsaPubDER : List Byte)
    (h : (SaveClientKeys r s clientID rsaPubDER ecdsaPubDER).1 = none) :
    (SaveClientKeys r s clientID rsaPubDER ecdsaPubDER).2.slots (keyRSA clientID) =
        some ⟨EncodeToString rsaPubDER, s.now + r.ttl⟩ ∧
      (SaveClientKeys r s clientID rsaPubDER ecdsaPubDER).2.slots (keyECDSA clientID) =
        some ⟨EncodeToString ecdsaPubDER, s.now + r.ttl⟩ := by
  rcases SaveClientKeys_cases r s clientID rsaPubDER ecdsaPubDER with
    ⟨err, -, h'⟩ | ⟨h1, ⟨err, -, h'⟩ | ⟨h2, h'⟩⟩
  · rw [h'] at h
    exact absurd h (by simp)
  · rw [h'] at h
    exact absurd h (by simp)
  · rw [h']
    constructor
    · rw [Set_slots_other _ _ _ _ _ (keyRSA_ne_keyECDSA clientID clientID),
        Set_slots_of_ok _ _ _ _ h1]
      simp
    · rw [Set_slots_of_ok _ _ _ _ h2, Set_now]
      simp

theorem Get_advance (s : RedisState) (d : Nat) (key : String) :
    (s.advance d).Get key =
      match s.slots key with
      | some e => if s.now + d < e.expireAt then .ok e.value else .error .redisNil
      | none => .error .redisNil := rfl

/-! ## `Pkcs7Pad`: length, content, aligned input -/

/-- C3, counterexample: with block size 0 the call `Pkcs7Pad([1 2 3], 0)`
stops in a run-time panic (integer division by zero), so it returns no
sequence at all, of whatever length; with block size `2 ^ 62` on 64-bit Linux
it panics in the allocation of the padding. -/
theorem Pkcs7Pad_length_fails_at_zero :
    Pkcs7Pad maxAllocLinux64 [1, 2, 3] 0 = .panic "runtime error: integer divide by zero" ∧
      (¬ ∃ out, Pkcs7Pad maxAllocLinux64 [1, 2, 3] 0 = .ret out ∧
        ((0 : Int) ∣ (out.length : Int)) ∧ [1, 2, 3].length < out.length) ∧
      Pkcs7Pad maxAllocLinux64 [1, 2, 3] (2 ^ 62) =
        .panic "runtime error: makeslice: len out of range" := by
  refine ⟨by decide, ?_, by decide⟩
  rintro ⟨out, h, -⟩
  simp [Pkcs7Pad] at h

/-- C3, amended: for every byte sequence `data` and every block size `n` with
`1 ≤ n` for which the padded length `len(data) + (n - len(data) mod n)` does
not exceed the allocation limit of the runtime, `Pkcs7Pad(data, n)` returns a
sequence whose length is a multiple of `n` and strictly greater than
`len(data)`. -/
theorem Pkcs7Pad_length (maxAlloc : Nat) (data : List Byte) (n : Int) (hn : 1 ≤ n)
    (hn2 : n < 2 ^ 63)
    (hfit : (data.length : Int) + (n - (data.length : Int) % n) ≤ (maxAlloc : Int)) :
    ∃ out, Pkcs7Pad maxAlloc data n = .ret out ∧
      (n ∣ (out.length : Int)) ∧ data.length < out.length := by
  obtain ⟨hk, hk1, -⟩ := padCount_spec data.length n hn
  refine ⟨_, Pkcs7Pad_pos maxAlloc data n hn hn2 hfit, ?_, ?_⟩
  · refine ⟨(data.length : Int) / n + 1, ?_⟩
    have hdiv := Int.emod_add_ediv (data.length : Int) n
    simp only [List.length_append, List.length_replicate, Nat.cast_add]
    rw [hk]
    linarith
  · simp only [List.length_append, List.length_replicate]
    omega

/-- Witness of `Pkcs7Pad_length`: five bytes padded to a block size of 16. -/
theorem Pkcs7Pad_length_witness :
    ∃ out, Pkcs7Pad maxAllocLinux64 [1, 2, 3, 4, 5] 16 = .ret out ∧
      ((16 : Int) ∣ (out.length : Int)) ∧ [1, 2, 3, 4, 5].length < out.length :=
  Pkcs7Pad_length maxAllocLinux64 [1, 2, 3, 4, 5] 16 (by decide) (by decide) (by decide)

/-- C4, counterexample: with block size 300 and three bytes of data the code
appends 297 bytes, each of value `byte(297) = 41`, so no `k` is both the number
and the value of the appended bytes; with block size -8 the call panics and
returns nothing, and so it does with block size `2 ^ 62` on 64-bit Linux. -/
theorem Pkcs7Pad_content_fails_at_300 :
    Pkcs7Pad maxAllocLinux64 [1, 2, 3] 300 = .ret ([1, 2, 3] ++ List.replicate 297 41) ∧
      (¬ ∃ (k : Nat) (pad : List Byte),
        Pkcs7Pad maxAllocLinux64 [1, 2, 3] 300 = .ret ([1, 2, 3] ++ pad) ∧
        pad.length = k ∧ ∀ x ∈ pad, x.val = k) ∧
      Pkcs7Pad maxAllocLinux64 [1, 2, 3] (-8) = .panic "bytes: negative Repeat count" ∧
      Pkcs7Pad maxAllocLinux64 [1, 2, 3] (2 ^ 62) =
        .panic "runtime error: makeslice: len out of range" := by
  have h : Pkcs7Pad maxAllocLinux64 [1, 2, 3] 300 =
      .ret ([1, 2, 3] ++ List.replicate 297 41) := by
    rw [Pkcs7Pad_pos _ _ _ (by decide) (by decide) (by decide)]
    rfl
  refine ⟨h, ?_, by decide, by decide⟩
  rintro ⟨k, pad, hp, hlen, hval⟩
  rw [h] at hp
  have hpad : pad = List.replicate 297 41 := by
    have := Run.ret.inj hp
    exact (List.append_cancel_left this).symm
  subst hpad
  have h1 : k = 297 := by rw [List.length_replicate] at hlen; exact hlen.symm
  have h2 := hval 41 (List.mem_replicate.mpr ⟨by decide, rfl⟩)
  subst h1
  exact absurd h2 (by decide)

/-- C4, amended: for every byte sequence `data` and every block size `n` with
`1 ≤ n` for which the padded length `len(data) + k` does not exceed the
allocation limit of the runtime, `Pkcs7Pad(data, n)` equals `data` followed by
`k` bytes each of value `k mod 256`, where `k = n - len(data) mod n` (so
`1 ≤ k ≤ n`) is the number of bytes needed to reach the next multiple of `n`;
`data` is an unchanged prefix of the result, and whenever `k ≤ 255` (in
particular for every `n ≤ 255`) each padding byte, the last byte included, has
value exactly `k`, the number of padding bytes appended. -/
theorem Pkcs7Pad_content (maxAlloc : Nat) (data : List Byte) (n : Int) (hn : 1 ≤ n)
    (hn2 : n < 2 ^ 63)
    (hfit : (data.length : Int) + (n - (data.length : Int) % n) ≤ (maxAlloc : Int)) :
    ∃ (k : Nat) (v : Byte),
      (k : Int) = n - (data.length : Int) % n ∧ 1 ≤ k ∧ (k : Int) ≤ n ∧
      n ∣ ((data.length + k : Nat) : Int) ∧
      Pkcs7Pad maxAlloc data n = .ret (data ++ List.replicate k v) ∧
      data <+: data ++ List.replicate k v ∧
      (data ++ List.replicate k v).getLast? = some v ∧
      v.val = k % 256 ∧ (k ≤ 255 → v.val = k) ∧ (n ≤ 255 → v.val = k) := by
  obtain ⟨hk, hk1, hk2⟩ := padCount_spec data.length n hn
  have hv : (toByte (padCount data.length n)).val = padCount data.length n % 256 := by
    simp only [toByte, Fin.ofNat]
    omega
  refine ⟨padCount data.length n, toByte (padCount data.length n), hk, hk1, hk2, ?_,
    Pkcs7Pad_pos maxAlloc data n hn hn2 hfit, List.prefix_append _ _, ?_, hv, ?_, ?_⟩
  · refine ⟨(data.length : Int) / n + 1, ?_⟩
    have hdiv := Int.emod_add_ediv (data.length : Int) n
    rw [Nat.cast_add, hk]
    linarith
  · obtain ⟨m, hm⟩ : ∃ m, padCount data.length n = m + 1 := ⟨padCount data.length n - 1, by omega⟩
    rw [hm, List.replicate_succ', ← List.append_assoc, List.getLast?_append]
    simp
  · intro h
    rw [hv]
    omega
  · intro h
    rw [hv]
    omega

/-- Witness of `Pkcs7Pad_content`: five bytes padded to a block size of 8. -/
theorem Pkcs7Pad_content_witness :
    Pkcs7Pad maxAllocLinux64 [1, 2, 3, 4, 5] 8 = .ret [1, 2, 3, 4, 5, 3, 3, 3] := by
  obtain ⟨k, v, hk, -, -, -, hpad, -, -, -, -, hv⟩ :=
    Pkcs7Pad_content maxAllocLinux64 [1, 2, 3, 4, 5] 8 (by decide) (by decide) (by decide)
  have hk3 : k = 3 := by
    have h5 : (([1, 2, 3, 4, 5] : List Byte).length : Int) % 8 = 5 := by decide
    rw [h5] at hk
    omega
  have hv3 : v = 3 := Fin.ext (by rw [hv (by decide), hk3]; rfl)
  rw [hpad, hk3, hv3]
  rfl

/-- C5, counterexample: the empty sequence has a length that is a multiple of
the block size 0, and sixteen bytes a length that is a multiple of -16; in
both cases `Pkcs7Pad` panics instead of appending a block, and so it does for
the empty sequence with block size `2 ^ 62` on 64-bit Linux. -/
theorem Pkcs7Pad_aligned_fails_at_zero :
    ((0 : Int) ∣ (([] : List Byte).length : Int)) ∧
      Pkcs7Pad maxAllocLinux64 [] 0 = .panic "runtime error: integer divide by zero" ∧
      ((-16 : Int) ∣ ((List.replicate 16 (0 : Byte)).length : Int)) ∧
      Pkcs7Pad maxAllocLinux64 (List.replicate 16 0) (-16) =
        .panic "bytes: negative Repeat count" ∧
      (((2 : Int) ^ 62) ∣ (([] : List Byte).length : Int)) ∧
      Pkcs7Pad maxAllocLinux64 [] (2 ^ 62) =
        .panic "runtime error: makeslice: len out of range" := by
  refine ⟨by decide, by decide, by decide, by decide, by decide, by decide⟩

/-- C5, amended: for every block size `n` with `1 ≤ n` and every byte sequence
`data` whose length is a multiple of `n` (the empty sequence included) and for
which `len(data) + n` does not exceed the allocation limit of the runtime,
`Pkcs7Pad(data, n)` appends exactly one full block: the result is `data`
followed by `n` bytes and has length `len(data) + n`, so zero bytes of padding
are never appended. -/
theorem Pkcs7Pad_aligned (maxAlloc : Nat) (data : List Byte) (n : Int) (hn : 1 ≤ n)
    (hn2 : n < 2 ^ 63) (halign : n ∣ (data.length : Int))
    (hfit : (data.length : Int) + n ≤ (maxAlloc : Int)) :
    ∃ pad, Pkcs7Pad maxAlloc data n = .ret (data ++ pad) ∧ (pad.length : Int) = n ∧
      ((data ++ pad).length : Int) = data.length + n ∧ pad ≠ [] := by
  obtain ⟨hk, hk1, -⟩ := padCount_spec data.length n hn
  have hmod : (data.length : Int) % n = 0 := Int.emod_eq_zero_of_dvd halign
  have hfit2 : (data.length : Int) + (n - (data.length : Int) % n) ≤ (maxAlloc : Int) := by
    rw [hmod]
    omega
  rw [hmod] at hk
  refine ⟨_, Pkcs7Pad_pos maxAlloc data n hn hn2 hfit2, ?_, ?_, ?_⟩
  · simp only [List.length_replicate]
    omega
  · simp only [List.length_append, List.length_replicate, Nat.cast_add]
    omega
  · intro h
    have := congrArg List.length h
    simp only [List.length_replicate, List.length_nil] at this
    omega

/-- Witness of `Pkcs7Pad_aligned`: the empty sequence and block size 4. -/
theorem Pkcs7Pad_aligned_witness :
    ∃ pad, Pkcs7Pad maxAllocLinux64 [] 4 = .ret ([] ++ pad) ∧ (pad.length : Int) = 4 ∧
      ((([] : List Byte) ++ pad).length : Int) = ([] : List Byte).length + 4 ∧ pad ≠ [] :=
  Pkcs7Pad_aligned maxAllocLinux64 [] 4 (by decide) (by decide) (by decide) (by decide)

/-! ## Panics of the crypto layer -/

/-- C6: with PEM extraction, raw EC decoding and PKCS#8 decoding as given
functions, `ParseECDSAPriv` returns an error when no PEM block is found;
otherwise the key of the raw EC decoding when that succeeds; otherwise it
returns a key exactly when the PKCS#8 decoding succeeds with an ECDSA key, and
then that key; in every other case it returns an error, so a PKCS#8 container
with a key of another algorithm is never accepted. -/
theorem ParseECDSAPriv_decision {K O : Type}
    (pemDecode : List Byte → Option (List Byte))
    (ParseECPrivateKey : List Byte → Except GoError K)
    (ParsePKCS8PrivateKey : List Byte → Except GoError (AnyKey K O))
    (pemBytes : List Byte) :
    (pemDecode pemBytes = none →
        ParseECDSAPriv pemDecode ParseECPrivateKey ParsePKCS8PrivateKey pemBytes =
          .error (.errorString "invalid PEM block")) ∧
      (∀ blk key, pemDecode pemBytes = some blk → ParseECPrivateKey blk = .ok key →
        ParseECDSAPriv pemDecode ParseECPrivateKey ParsePKCS8PrivateKey pemBytes = .ok key) ∧
      (∀ blk err, pemDecode pemBytes = some blk → ParseECPrivateKey blk = .error err →
        ∀ k, ParseECDSAPriv pemDecode ParseECPrivateKey ParsePKCS8PrivateKey pemBytes = .ok k ↔
          ParsePKCS8PrivateKey blk = .ok (.ecdsa k)) ∧
      (∀ blk err, pemDecode pemBytes = some blk → ParseECPrivateKey blk = .error err →
        (∀ k, ParsePKCS8PrivateKey blk ≠ .ok (.ecdsa k)) →
        ParseECDSAPriv pemDecode ParseECPrivateKey ParsePKCS8PrivateKey pemBytes =
          .error (.errorString "unable to parse ECDSA private key")) ∧
      (∀ blk err other, pemDecode pemBytes = some blk → ParseECPrivateKey blk = .error err →
        ParsePKCS8PrivateKey blk = .ok (.other other) →
        ParseECDSAPriv pemDecode ParseECPrivateKey ParsePKCS8PrivateKey pemBytes =
          .error (.errorString "unable to parse ECDSA private key")) := by
  refine ⟨?_, ?_, ?_, ?_, ?_⟩
  · intro h
    simp [ParseECDSAPriv, h]
  · intro blk key h1 h2
    simp [ParseECDSAPriv, h1, h2]
  · intro blk err h1 h2 k
    simp only [ParseECDSAPriv, h1, h2]
    cases h3 : ParsePKCS8PrivateKey blk with
    | error e => simp
    | ok key => cases key <;> simp
  · intro blk err h1 h2 h3
    simp only [ParseECDSAPriv, h1, h2]
    cases h4 : ParsePKCS8PrivateKey blk with
    | error e => rfl
    | ok key =>
      cases key with
      | ecdsa k => exact absurd h4 (h3 k)
      | other o => rfl
  · intro blk err other h1 h2 h3
    simp [ParseECDSAPriv, h1, h2, h3]

/-- Example for `ParseECDSAPriv_decision`: a block that is no raw EC key and
whose PKCS#8 content is an RSA key is rejected. -/
theorem ParseECDSAPriv_decision_witness :
    ParseECDSAPriv demoPemDecode demoParseEC demoParsePKCS8 [3, 0] =
      .error (.errorString "unable to parse ECDSA private key") :=
  (ParseECDSAPriv_decision demoPemDecode demoParseEC demoParsePKCS8 [3, 0]).2.2.2.2
    [3, 0] (.backend "x509: failed to parse EC private key") "rsa" (by decide) (by decide)
    (by decide)

/-! ## The client key registry -/

/-- C1: after `SaveClientKeys(id, rsaDER, ecdsaDER)` has succeeded and while
fewer than `ttl` ticks have passed, `GetClientRSAPub(id)` succeeds and returns
exactly `rsaDER`, for every byte sequence (the empty one included): the
base64 decoding of the stored text undoes the encoding done at save time. -/
theorem registry_round_trip (r : redisClientPubKeyStore) (s : RedisState) (id : String)
    (rsaDER ecdsaDER : List Byte) (d : Nat)
    (hsave : (SaveClientKeys r s id rsaDER ecdsaDER).1 = none) (hd : (d : Int) < r.ttl) :
    GetClientRSAPub ((SaveClientKeys r s id rsaDER ecdsaDER).2.advance d) id = .ok rsaDER := by
  obtain ⟨hrsa, -⟩ := SaveClientKeys_slots_of_ok r s id rsaDER ecdsaDER hsave
  obtain ⟨hnow, -⟩ := SaveClientKeys_frame r s id rsaDER ecdsaDER
  have hlt : s.now + (d : Int) < s.now + r.ttl := by omega
  simp only [GetClientRSAPub, Get_advance, hrsa, hnow, hlt, if_true,
    DecodeString_EncodeToString]

/-- Witness of `registry_round_trip`: client alice, ttl 60 s, read back after
59 s. -/
theorem registry_round_trip_witness :
    GetClientRSAPub
        ((SaveClientKeys (NewRedisClientPubKeyStore (60 * second)) (RedisState.empty 0) "alice"
          [48, 130, 1, 34, 0] [48, 89]).2.advance 59000000000) "alice" =
      .ok [48, 130, 1, 34, 0] :=
  registry_round_trip (NewRedisClientPubKeyStore (60 * second)) (RedisState.empty 0) "alice"
    [48, 130, 1, 34, 0] [48, 89] 59000000000 (by decide) (by decide)

/-- C7: `SaveClientKeys` returns an error if and only if one of its two store
writes fails. When the RSA write fails the error is `redis save rsa_pub`
wrapping the store's error and the ECDSA write is not issued; when the ECDSA
write fails the error is `redis save ecdsa_pub` wrapping the store's error,
and the RSA slot holds the newly written base64 text of `rsaPubDER` with its
expiry: the first write is not rolled back. -/
theorem SaveClientKeys_failure (r : redisClientPubKeyStore) (s : RedisState) (clientID : String)
    (rsaPubDER ecdsaPubDER : List Byte) :
    ((SaveClientKeys r s clientID rsaPubDER ecdsaPubDER).1 ≠ none ↔
        (rsaWrite r s clientID rsaPubDER).1 ≠ none ∨
          (ecdsaWrite r s clientID rsaPubDER ecdsaPubDER).1 ≠ none) ∧
      (∀ err, (rsaWrite r s clientID rsaPubDER).1 = some err →
        SaveClientKeys r s clientID rsaPubDER ecdsaPubDER =
          (some (.wrap "redis save rsa_pub" err), (rsaWrite r s clientID rsaPubDER).2)) ∧
      (∀ err, (rsaWrite r s clientID rsaPubDER).1 = none →
        (ecdsaWrite r s clientID rsaPubDER ecdsaPubDER).1 = some err →
        (SaveClientKeys r s clientID rsaPubDER ecdsaPubDER).1 =
            some (.wrap "redis save ecdsa_pub" err) ∧
          (SaveClientKeys r s clientID rsaPubDER ecdsaPubDER).2.slots (keyRSA clientID) =
            some ⟨EncodeToString rsaPubDER, s.now + r.ttl⟩) := by
  simp only [rsaWrite, ecdsaWrite]
  rcases SaveClientKeys_cases r s clientID rsaPubDER ecdsaPubDER with
    ⟨e1, h1, h⟩ | ⟨h1, ⟨e2, h2, h⟩ | ⟨h2, h⟩⟩
  · refine ⟨?_, ?_, ?_⟩
    · simp [h, h1]
    · intro err herr
      rw [h1] at herr
      rw [h, Option.some.inj herr]
    · intro err hnone
      rw [h1] at hnone
      exact absurd hnone (by simp)
  · refine ⟨?_, ?_, ?_⟩
    · simp [h, h2]
    · intro err herr
      rw [h1] at herr
      exact absurd herr (by simp)
    · intro err _ herr
      rw [h2] at herr
      rw [h, ← Option.some.inj herr]
      refine ⟨rfl, ?_⟩
      rw [Set_slots_of_error _ _ _ _ e2 h2, Set_slots_of_ok _ _ _ _ h1]
      simp
  · refine ⟨?_, ?_, ?_⟩
    · simp [h, h1, h2]
    · intro err herr
      rw [h1] at herr
      exact absurd herr (by simp)
    · intro err _ herr
      rw [h2] at herr
      exact absurd herr (by simp)

/-- Example for `SaveClientKeys_failure`: on a store whose second write fails
with `connection reset`, the save reports `redis save ecdsa_pub` and the RSA
slot of alice holds the new text `AQID`. -/
theorem SaveClientKeys_failure_witness :
    (SaveClientKeys (NewRedisClientPubKeyStore (60 * second)) flakyStore "alice"
          [1, 2, 3] [4, 5]).1 =
        some (.wrap "redis save ecdsa_pub" (.backend "connection reset")) ∧
      (SaveClientKeys (NewRedisClientPubKeyStore (60 * second)) flakyStore "alice"
          [1, 2, 3] [4, 5]).2.slots "client:alice:rsa_pub" =
        some ⟨"AQID", 60000000000⟩ :=
  (SaveClientKeys_failure (NewRedisClientPubKeyStore (60 * second)) flakyStore "alice"
    [1, 2, 3] [4, 5]).2.2 (.backend "connection reset") (by decide) (by decide)

/-- C8: both slots are written with the ttl the registry was constructed
with, and once that ttl has elapsed since a successful
`SaveClientKeys(id, ...)`, with no later save, both `GetClientRSAPub(id)` and
`GetClientECDSAPub(id)` fail with the store's not-found error (`redis.Nil`,
wrapped). -/
theorem registry_expiry {K O : Type}
    (ParsePKIXPublicKey : List Byte → Except GoError (AnyKey K O))
    (ttl : Int) (s : RedisState) (id : String) (rsaDER ecdsaDER : List Byte) (d : Nat)
    (hsave : (SaveClientKeys (NewRedisClientPubKeyStore ttl) s id rsaDER ecdsaDER).1 = none)
    (hd : ttl ≤ (d : Int)) :
    (SaveClientKeys (NewRedisClientPubKeyStore ttl) s id rsaDER ecdsaDER).2.slots (keyRSA id) =
        some ⟨EncodeToString rsaDER, s.now + ttl⟩ ∧
      (SaveClientKeys (NewRedisClientPubKeyStore ttl) s id rsaDER ecdsaDER).2.slots
          (keyECDSA id) = some ⟨EncodeToString ecdsaDER, s.now + ttl⟩ ∧
      GetClientRSAPub
          ((SaveClientKeys (NewRedisClientPubKeyStore ttl) s id rsaDER ecdsaDER).2.advance d) id =
        .error (.wrap "redis get rsa_pub" .redisNil) ∧
      GetClientECDSAPub ParsePKIXPublicKey
          ((SaveClientKeys (NewRedisClientPubKeyStore ttl) s id rsaDER ecdsaDER).2.advance d) id =
        .error (.wrap "redis get ecdsa_pub" .redisNil) := by
  obtain ⟨hrsa, hecdsa⟩ :=
    SaveClientKeys_slots_of_ok (NewRedisClientPubKeyStore ttl) s id rsaDER ecdsaDER hsave
  obtain ⟨hnow, -⟩ := SaveClientKeys_frame (NewRedisClientPubKeyStore ttl) s id rsaDER ecdsaDER
  have httl : (NewRedisClientPubKeyStore ttl).ttl = ttl := rfl
  rw [httl] at hrsa hecdsa
  have hlt : ¬ s.now + (d : Int) < s.now + ttl := by omega
  refine ⟨hrsa, hecdsa, ?_, ?_⟩
  · simp only [GetClientRSAPub, Get_advance, hrsa, hnow, hlt, if_false]
  · simp only [GetClientECDSAPub, Get_advance, hecdsa, hnow, hlt, if_false]

/-- Witness of `registry_expiry`: client alice, ttl 60 s, clock advanced by
61 s; both reads fail with the wrapped `redis.Nil`. -/
theorem registry_expiry_witness :
    GetClientRSAPub
          ((SaveClientKeys (NewRedisClientPubKeyStore (60 * second)) (RedisState.empty 0)
            "alice" [48, 130, 1, 34] [2, 89]).2.advance 61000000000) "alice" =
        .error (.wrap "redis get rsa_pub" .redisNil) ∧
      GetClientECDSAPub demoParsePKIX
          ((SaveClientKeys (NewRedisClientPubKeyStore (60 * second)) (RedisState.empty 0)
            "alice" [48, 130, 1, 34] [2, 89]).2.advance 61000000000) "alice" =
        .error (.wrap "redis get ecdsa_pub" .redisNil) :=
  (registry_expiry demoParsePKIX (60 * second) (RedisState.empty 0) "alice"
    [48, 130, 1, 34] [2, 89] 61000000000 (by decide) (by decide)).2.2

/-- C10: the RSA slot name of a client never equals the ECDSA slot name of a
client, and for `a ≠ b` the four slot names of `a` and `b` are pairwise
distinct; hence `SaveClientKeys` for `a`, whether it succeeds or fails, changes
no slot other than the two of `a` and leaves unchanged what
`GetClientRSAPub(b)` and `GetClientECDSAPub(b)` return. -/
theorem client_isolation {K O : Type}
    (ParsePKIXPublicKey : List Byte → Except GoError (AnyKey K O))
    (r : redisClientPubKeyStore) (s : RedisState) (a b : String)
    (rsaPubDER ecdsaPubDER : List Byte) (hab : a ≠ b) :
    (∀ c d : String, keyRSA c ≠ keyECDSA d) ∧
      [keyRSA a, keyECDSA a, keyRSA b, keyECDSA b].Nodup ∧
      (∀ k, k ≠ keyRSA a → k ≠ keyECDSA a →
        (SaveClientKeys r s a rsaPubDER ecdsaPubDER).2.slots k = s.slots k) ∧
      GetClientRSAPub (SaveClientKeys r s a rsaPubDER ecdsaPubDER).2 b = GetClientRSAPub s b ∧
      GetClientECDSAPub ParsePKIXPublicKey (SaveClientKeys r s a rsaPubDER ecdsaPubDER).2 b =
        GetClientECDSAPub ParsePKIXPublicKey s b := by
  obtain ⟨hnow, hframe⟩ := SaveClientKeys_frame r s a rsaPubDER ecdsaPubDER
  have hrr : keyRSA b ≠ keyRSA a := fun h => hab (keyRSA_inj _ _ h).symm
  have hee : keyECDSA b ≠ keyECDSA a := fun h => hab (keyECDSA_inj _ _ h).symm
  have hre : keyRSA b ≠ keyECDSA a := keyRSA_ne_keyECDSA b a
  have her : keyECDSA b ≠ keyRSA a := fun h => keyRSA_ne_keyECDSA a b h.symm
  refine ⟨keyRSA_ne_keyECDSA, ?_, hframe, ?_, ?_⟩
  · simp only [List.nodup_cons, List.mem_cons, List.mem_singleton, List.not_mem_nil,
      List.nodup_nil, not_or, not_false_eq_true, and_true]
    exact ⟨⟨keyRSA_ne_keyECDSA a a, hrr.symm, keyRSA_ne_keyECDSA a b⟩,
      ⟨hre.symm, hee.symm⟩, keyRSA_ne_keyECDSA b b⟩
  · simp only [GetClientRSAPub, RedisState.Get, hnow, hframe _ hrr hre]
  · simp only [GetClientECDSAPub, RedisState.Get, hnow, hframe _ her hee]

/-- Witness of `client_isolation`: bob's keys are stored; a later save for
alice leaves both of bob's reads as they were. -/
theorem client_isolation_witness :
    GetClientRSAPub
          (SaveClientKeys (NewRedisClientPubKeyStore (60 * second))
            (SaveClientKeys (NewRedisClientPubKeyStore (60 * second)) (RedisState.empty 0)
              "bob" [1, 2, 3] [2, 5]).2 "alice" [9] [8]).2 "bob" =
        .ok [1, 2, 3] ∧
      GetClientECDSAPub demoParsePKIX
          (SaveClientKeys (NewRedisClientPubKeyStore (60 * second))
            (SaveClientKeys (NewRedisClientPubKeyStore (60 * second)) (RedisState.empty 0)
              "bob" [1, 2, 3] [2, 5]).2 "alice" [9] [8]).2 "bob" =
        .ok 2 := by
  have h := client_isolation demoParsePKIX (NewRedisClientPubKeyStore (60 * second))
    (SaveClientKeys (NewRedisClientPubKeyStore (60 * second)) (RedisState.empty 0)
      "bob" [1, 2, 3] [2, 5]).2 "alice" "bob" [9] [8] (by decide)
  exact ⟨h.2.2.2.1.trans (by decide), h.2.2.2.2.trans (by decide)⟩

end SecureComm
